import Mathlib

/-!
Verification of the to-do-board repository's board reconciliation model.

Client side (`src/src/routes/index.tsx`): the column/task data model, the
normalization step (`normalizeTasks`), the persistence step
(`persistColumns`) and the reducer handlers (`handleColumnRename`,
`handleRemoveColumn`, `handleRemoveTask`, `handleTaskEditSave`,
`handleTaskEditSaveAndAddBelow`, `handleToggleTask`, `handleInsertColumn`,
and the three `handleDragEnd` branches).

Server side (`src/convex/board.ts`): the document store and the mutations
`renameBoard`, `deleteBoard`, `setColumns`, `toggleTaskCompleted` and the
query `getBoard`.

The source generates fresh identifiers with `createId()`
(`crypto.randomUUID`); the embedding passes each generated identifier as an
explicit argument (client handlers) or draws it from a counter in the store
(server mutations), since uuid generation is the only non-determinism.
-/

namespace ToDoBoard

/-- Client task shape (`type Task` in `src/src/routes/index.tsx`): `completed`
is a required boolean on the client. -/
structure Task where
  id : String
  text : String
  completed : Bool
deriving DecidableEq

/-- Client column shape (`type Column` in `src/src/routes/index.tsx`). -/
structure Column where
  id : String
  title : String
  tasks : List Task
deriving DecidableEq

/-- JavaScript `String.prototype.trim`: drop whitespace from both ends. -/
def jsTrim (s : String) : String :=
  ⟨(((s.data.dropWhile Char.isWhitespace).reverse).dropWhile
      Char.isWhitespace).reverse⟩

/-- JavaScript `array.splice(i, 0, x)`: insert `x` at index `i`, clamping the
index to `[0, length]` (an index past the end appends). -/
def insertAt {α : Type} (l : List α) (i : Nat) (x : α) : List α :=
  l.take i ++ x :: l.drop i

/-- Replace the element at index `i` by `f` of it; other positions are kept.
Used to embed the in-place updates `next[k].tasks = ...` of the source. -/
def listModify {α : Type} : List α → Nat → (α → α) → List α
  | [], _, _ => []
  | a :: l, 0, f => f a :: l
  | a :: l, n + 1, f => a :: listModify l n f

/-- `normalizeTasks` (src/src/routes/index.tsx:59-67): incomplete tasks first,
then completed tasks, each group keeping its relative order.  The source first
maps `completed ?? false` over the tasks; on the client `completed` is a
required boolean, so that map is the identity and is dropped here. -/
def normalizeTasks (ts : List Task) : List Task :=
  ts.filter (fun t => !t.completed) ++ ts.filter (fun t => t.completed)

/-- Per-column normalization as done inside `persistColumns`. -/
def normalizeColumn (c : Column) : Column :=
  { c with tasks := normalizeTasks c.tasks }

/-- `persistColumns` (src/src/routes/index.tsx:153-164) restricted to its pure
state transition: every column's tasks are normalized; the same normalized
list is both stored locally and pushed to the server. -/
def persistColumns (cs : List Column) : List Column :=
  cs.map normalizeColumn

/-- `handleColumnRename` (src/src/routes/index.tsx:202-214): trim the edited
title; an empty result discards the edit (state untouched), otherwise the
column's title is replaced and the state persisted. -/
def handleColumnRename (columnId value : String) (cs : List Column) :
    List Column :=
  let title := jsTrim value
  if title = "" then cs
  else
    persistColumns (cs.map (fun column =>
      if column.id == columnId then { column with title := title } else column))

/-- `handleRemoveColumn` (src/src/routes/index.tsx:192-200). -/
def handleRemoveColumn (columnId : String) (cs : List Column) : List Column :=
  persistColumns (cs.filter (fun column => column.id != columnId))

/-- `handleRemoveTask` (src/src/routes/index.tsx:216-232): drop the task from
the addressed column; if the column would become empty, a fresh placeholder
task `{createId(), "New task", false}` is put in instead.  `placeholderId`
stands for the `createId()` call. -/
def handleRemoveTask (placeholderId columnId taskId : String)
    (cs : List Column) : List Column :=
  persistColumns (cs.map (fun column =>
    if column.id == columnId then
      let tasks := column.tasks.filter (fun task => task.id != taskId)
      { column with
        tasks :=
          if tasks.length > 0 then tasks
          else [{ id := placeholderId, text := "New task", completed := false }] }
    else column))

/-- `handleTaskEditSave` (src/src/routes/index.tsx:234-253): trim the edited
text; empty discards the edit, otherwise the task's text is replaced. -/
def handleTaskEditSave (columnId taskId value : String) (cs : List Column) :
    List Column :=
  let text := jsTrim value
  if text = "" then cs
  else
    persistColumns (cs.map (fun column =>
      if column.id != columnId then column
      else
        { column with
          tasks := column.tasks.map (fun task =>
            if task.id == taskId then { task with text := text } else task) }))

/-- `handleTaskEditSaveAndAddBelow` (src/src/routes/index.tsx:255-290): save
the edited text and insert a fresh empty task below it, inheriting the edited
task's completed flag.  `newTaskId` stands for the `createId()` call. -/
def handleTaskEditSaveAndAddBelow (newTaskId columnId taskId value : String)
    (cs : List Column) : List Column :=
  let text := jsTrim value
  if text = "" then cs
  else
    persistColumns (cs.map (fun column =>
      if column.id != columnId then column
      else
        match column.tasks.findIdx? (fun task => task.id == taskId) with
        | none => column
        | some taskIndex =>
          match column.tasks[taskIndex]? with
          | none => column
          | some old =>
            let tasks := column.tasks.set taskIndex { old with text := text }
            let newTask : Task :=
              { id := newTaskId, text := "", completed := old.completed }
            { column with
              tasks := normalizeTasks (insertAt tasks (taskIndex + 1) newTask) }))

/-- `handleToggleTask` (src/src/routes/index.tsx:292-314), local part: flip
the task's completed flag and normalize the column (the column is normalized
once inside the handler and once more by `persistColumns`). -/
def handleToggleTask (columnId taskId : String) (cs : List Column) :
    List Column :=
  persistColumns (cs.map (fun column =>
    if column.id != columnId then column
    else
      { column with
        tasks := normalizeTasks (column.tasks.map (fun task =>
          if task.id == taskId then { task with completed := !task.completed }
          else task)) }))

/-- `handleInsertColumn` (src/src/routes/index.tsx:316-326): splice a new
column (title `Column ${length+1}`, one placeholder task) at the index.
`newColumnId` and `newTaskId` stand for the two `createId()` calls. -/
def handleInsertColumn (newColumnId newTaskId : String) (index : Nat)
    (cs : List Column) : List Column :=
  let title := "Column " ++ toString (cs.length + 1)
  persistColumns (insertAt cs index
    { id := newColumnId, title := title,
      tasks := [{ id := newTaskId, text := "New task", completed := false }] })

/-- `arrayMove` from `@dnd-kit/sortable`: remove the element at `i` and
re-insert it at `j` (both indexes are in range at every call site). -/
def arrayMove {α : Type} (l : List α) (i j : Nat) : List α :=
  match l[i]? with
  | none => l
  | some x => insertAt (l.eraseIdx i) j x

/-- `findTaskLocationInColumns` (src/src/routes/index.tsx:1160-1170): first
column containing the task id, with the task's index inside it. -/
def findTaskLocationInColumns (cs : List Column) (taskId : String) :
    Option (Nat × Nat) :=
  match cs with
  | [] => none
  | c :: rest =>
    match c.tasks.findIdx? (fun task => task.id == taskId) with
    | some taskIndex => some (0, taskIndex)
    | none =>
      (findTaskLocationInColumns rest taskId).map (fun p => (p.1 + 1, p.2))

/-- `handleDragEnd`, column-over-column branch
(src/src/routes/index.tsx:353-362): relocate the dragged column to the
hovered column's position. -/
def handleDragEndMoveColumn (activeColumnId overColumnId : String)
    (cs : List Column) : List Column :=
  if activeColumnId == overColumnId then cs
  else
    match cs.findIdx? (fun c => c.id == activeColumnId),
        cs.findIdx? (fun c => c.id == overColumnId) with
    | some i, some j => persistColumns (arrayMove cs i j)
    | _, _ => cs

/-- `handleDragEnd`, task-over-task branch (src/src/routes/index.tsx:370-400):
reorder within a column, or splice the task out of its column and into the
hovered task's position in another column. -/
def handleDragEndTaskOverTask (activeTaskId overTaskId : String)
    (cs : List Column) : List Column :=
  match findTaskLocationInColumns cs activeTaskId with
  | none => cs
  | some (sci, sti) =>
    match findTaskLocationInColumns cs overTaskId with
    | none => cs
    | some (dci, dti) =>
      if sci == dci then
        persistColumns (listModify cs sci (fun c =>
          { c with tasks := arrayMove c.tasks sti dti }))
      else
        match (cs[sci]?.bind (fun c => c.tasks[sti]?)) with
        | none => cs
        | some movedTask =>
          let afterRemove := listModify cs sci (fun c =>
            { c with tasks := c.tasks.eraseIdx sti })
          persistColumns (listModify afterRemove dci (fun c =>
            { c with tasks := insertAt c.tasks dti movedTask }))

/-- `handleDragEnd`, task-over-column branch
(src/src/routes/index.tsx:402-423): splice the task out of its column and
insert it at the boundary of the target column's completed group (index =
number of incomplete tasks). -/
def handleDragEndTaskOverColumn (activeTaskId targetColumnId : String)
    (cs : List Column) : List Column :=
  match findTaskLocationInColumns cs activeTaskId with
  | none => cs
  | some (sci, sti) =>
    match cs.findIdx? (fun c => c.id == targetColumnId) with
    | none => cs
    | some tci =>
      if tci == sci then cs
      else
        match (cs[sci]?.bind (fun c => c.tasks[sti]?)) with
        | none => cs
        | some movedTask =>
          let afterRemove := listModify cs sci (fun c =>
            { c with tasks := c.tasks.eraseIdx sti })
          persistColumns (listModify afterRemove tci (fun c =>
            { c with
              tasks := insertAt c.tasks
                (c.tasks.countP (fun task => !task.completed)) movedTask }))

/-- One editing intent of the local mutation path; each constructor carries
the explicit fresh ids its handler generates via `createId()`. -/
inductive Intent where
  | renameColumn (columnId title : String)
  | removeColumn (columnId : String)
  | removeTask (placeholderId columnId taskId : String)
  | renameTask (columnId taskId text : String)
  | saveAndAddBelow (newTaskId columnId taskId text : String)
  | toggleTask (columnId taskId : String)
  | insertColumn (newColumnId newTaskId : String) (index : Nat)
  | moveColumn (activeColumnId overColumnId : String)
  | moveTaskOverTask (activeTaskId overTaskId : String)
  | moveTaskOverColumn (activeTaskId targetColumnId : String)
deriving DecidableEq

/-- Dispatch an intent to its handler. -/
def applyIntent (i : Intent) (cs : List Column) : List Column :=
  match i with
  | .renameColumn columnId title => handleColumnRename columnId title cs
  | .removeColumn columnId => handleRemoveColumn columnId cs
  | .removeTask placeholderId columnId taskId =>
    handleRemoveTask placeholderId columnId taskId cs
  | .renameTask columnId taskId text => handleTaskEditSave columnId taskId text cs
  | .saveAndAddBelow newTaskId columnId taskId text =>
    handleTaskEditSaveAndAddBelow newTaskId columnId taskId text cs
  | .toggleTask columnId taskId => handleToggleTask columnId taskId cs
  | .insertColumn newColumnId newTaskId index =>
    handleInsertColumn newColumnId newTaskId index cs
  | .moveColumn activeColumnId overColumnId =>
    handleDragEndMoveColumn activeColumnId overColumnId cs
  | .moveTaskOverTask activeTaskId overTaskId =>
    handleDragEndTaskOverTask activeTaskId overTaskId cs
  | .moveTaskOverColumn activeTaskId targetColumnId =>
    handleDragEndTaskOverColumn activeTaskId targetColumnId cs

/-- Apply a sequence of intents in order. -/
def applyIntents (l : List Intent) (cs : List Column) : List Column :=
  l.foldl (fun s i => applyIntent i s) cs

/-- A task sequence is partitioned when every incomplete task precedes every
completed task (once a completed task occurs, all later tasks are completed). -/
def Partitioned (ts : List Task) : Prop :=
  ts.Pairwise (fun a b => a.completed = true → b.completed = true)

instance (ts : List Task) : Decidable (Partitioned ts) := by
  unfold Partitioned
  infer_instance

/-- Stored task shape (`convex/schema.ts`): `completed` is optional in the
schema (`v.optional(v.boolean())`), reflecting additive schema evolution. -/
structure STask where
  id : String
  text : String
  completed : Option Bool
deriving DecidableEq

/-- Stored column shape (`convex/schema.ts`). -/
structure SColumn where
  id : String
  title : String
  tasks : List STask
deriving DecidableEq

/-- One document of the `boards` table: Convex system id plus the optional
`name`/`slug` fields and the column list. -/
structure BoardDoc where
  id : Nat
  name : Option String
  slug : Option String
  columns : List SColumn
deriving DecidableEq

/-- The document store: the `boards` table in `_creationTime` ascending order
(insertion appends), a counter generating document ids, and a counter
modelling `crypto.randomUUID` freshness for `createId()`. -/
structure Store where
  boards : List BoardDoc
  nextId : Nat
  nextUuid : Nat
deriving DecidableEq

/-- What `getBoard` returns: the selected document with its display name
resolved and its columns normalized. -/
structure BoardView where
  id : Nat
  name : String
  slug : Option String
  columns : List SColumn
deriving DecidableEq

/-- A generated identifier, distinct for each counter value. -/
def mkUuid (n : Nat) : String := "uuid-" ++ toString n

/-- The `completed ?? false` defaulting step of `normalizeColumns`
(convex/board.ts:29-33). -/
def withDefaults (ts : List STask) : List STask :=
  ts.map (fun t => { t with completed := some (t.completed.getD false) })

/-- The `[...active, ...done]` re-partitioning step used by both
`normalizeColumns` and `toggleTaskCompleted` (convex/board.ts:34-40,205-207). -/
def partitionS (ts : List STask) : List STask :=
  ts.filter (fun t => !(t.completed.getD false)) ++
  ts.filter (fun t => t.completed.getD false)

/-- `normalizeColumns` (convex/board.ts:21-41): default the completed flags,
then order each column's tasks as incomplete-before-completed. -/
def normalizeColumns (cols : List SColumn) : List SColumn :=
  cols.map (fun column =>
    { id := column.id, title := column.title,
      tasks := partitionS (withDefaults column.tasks) })

/-- `defaultColumns` (convex/board.ts:43-64); `base` is the uuid counter at
the time of the call, consumed by the seven `createId()` calls in order. -/
def defaultColumns (base : Nat) : List SColumn :=
  [ { id := mkUuid base, title := "Backlog",
      tasks :=
        [ { id := mkUuid (base + 1), text := "Write landing page copy",
            completed := some false },
          { id := mkUuid (base + 2), text := "Create project board",
            completed := some false } ] },
    { id := mkUuid (base + 3), title := "In Progress",
      tasks :=
        [ { id := mkUuid (base + 4), text := "Build drag-and-drop interactions",
            completed := some false } ] },
    { id := mkUuid (base + 5), title := "Done",
      tasks :=
        [ { id := mkUuid (base + 6), text := "Setup TanStack Start app",
            completed := some true } ] } ]

/-- `boardName` (convex/board.ts:66-69): trimmed stored name, or
`Board ${index}` when the trimmed name is empty or the field is absent. -/
def boardName (name : Option String) (index : Nat) : String :=
  let trimmed := jsTrim (name.getD "")
  if trimmed = "" then "Board " ++ toString index else trimmed

/-- `ctx.db.get(boardId)`: the board document with the given id, if any. -/
def findBoardDoc (st : Store) (bid : Nat) : Option BoardDoc :=
  st.boards.find? (fun b => b.id == bid)

/-- `ctx.db.patch(boardId, fields)` restricted to the shapes used here:
replace the addressed document by `f` of it. -/
def patchBoard (st : Store) (bid : Nat) (f : BoardDoc → BoardDoc) : Store :=
  { st with
    boards := st.boards.map (fun b => if b.id == bid then f b else b) }

/-- `ctx.db.insert("boards", doc)`: append the document (creation order is
ascending) under a fresh id and return that id. -/
def insertBoard (name slug : Option String) (cols : List SColumn) (st : Store) :
    Nat × Store :=
  (st.nextId,
   { st with
     boards := st.boards ++
       [{ id := st.nextId, name := name, slug := slug, columns := cols }],
     nextId := st.nextId + 1 })

/-- `getBoard` (convex/board.ts:82-102): pick the requested board (falling
back to the first board), resolve its display name, normalize its columns;
`none` when the table is empty. -/
def getBoard (boardId : Option Nat) (st : Store) : Option BoardView :=
  match st.boards with
  | [] => none
  | b0 :: _ =>
    let selected : BoardDoc :=
      (boardId.bind (fun bid => st.boards.find? (fun b => b.id == bid))).getD b0
    let index := st.boards.findIdx (fun b => b.id == selected.id)
    some { id := selected.id, name := boardName selected.name (index + 1),
           slug := selected.slug, columns := normalizeColumns selected.columns }

/-- `renameBoard` (convex/board.ts:132-148): error when the board is missing,
error when the trimmed name is empty, otherwise patch the trimmed name. -/
def renameBoard (bid : Nat) (nm : String) (st : Store) : Except String Store :=
  match findBoardDoc st bid with
  | none => .error "Board not found"
  | some _ =>
    let name := jsTrim nm
    if name = "" then .error "Board name is required"
    else .ok (patchBoard st bid (fun b => { b with name := some name }))

/-- `deleteBoard` (convex/board.ts:150-172): error when missing; otherwise
delete the document, return the first remaining board's id, and when none
remain insert a fresh seeded default board and return its id. -/
def deleteBoard (bid : Nat) (st : Store) : Except String (Nat × Store) :=
  match findBoardDoc st bid with
  | none => .error "Board not found"
  | some _ =>
    match st.boards.eraseP (fun b => b.id == bid) with
    | first :: rest => .ok (first.id, { st with boards := first :: rest })
    | [] =>
      .ok (insertBoard (some "Board 1") (some "default")
        (defaultColumns st.nextUuid)
        { st with boards := [], nextUuid := st.nextUuid + 7 })

/-- `setColumns` (convex/board.ts:174-186): error when the board is missing,
otherwise replace its columns by the normalized payload.  The argument
validator requires a boolean `completed`, hence the payload is a client
column list. -/
def toSTask (t : Task) : STask :=
  { id := t.id, text := t.text, completed := some t.completed }

/-- Client column as it crosses the wire into `setColumns`. -/
def toSColumn (c : Column) : SColumn :=
  { id := c.id, title := c.title, tasks := c.tasks.map toSTask }

/-- `setColumns` (convex/board.ts:174-186). -/
def setColumns (bid : Nat) (cols : List Column) (st : Store) :
    Except String Store :=
  match findBoardDoc st bid with
  | none => .error "Board not found"
  | some _ =>
    .ok (patchBoard st bid (fun b =>
      { b with columns := normalizeColumns (cols.map toSColumn) }))

/-- `toggleTaskCompleted` (convex/board.ts:188-211): error when the board is
missing; otherwise rewrite the board's columns, setting the addressed task's
flag and re-partitioning the addressed column. -/
def toggleTaskCompleted (bid : Nat) (columnId taskId : String)
    (completed : Bool) (st : Store) : Except String Store :=
  match findBoardDoc st bid with
  | none => .error "Board not found"
  | some board =>
    let columns := (normalizeColumns board.columns).map (fun column =>
      if column.id != columnId then column
      else
        { column with
          tasks := partitionS (column.tasks.map (fun t =>
            if t.id == taskId then { t with completed := some completed }
            else t)) })
    .ok (patchBoard st bid (fun b => { b with columns := columns }))

/-- Stored-task order invariant on the server: every incomplete task precedes
every completed one (with absent flags read as incomplete). -/
def PartitionedS (ts : List STask) : Prop :=
  ts.Pairwise (fun a b =>
    a.completed.getD false = true → b.completed.getD false = true)

instance (ts : List STask) : Decidable (PartitionedS ts) := by
  unfold PartitionedS
  infer_instance

instance {ε α : Type} [DecidableEq ε] [DecidableEq α] : DecidableEq (Except ε α)
  | .error e, .error f => decidable_of_iff (e = f) (by simp)
  | .error _, .ok _ => isFalse (by simp)
  | .ok _, .error _ => isFalse (by simp)
  | .ok a, .ok b => decidable_of_iff (a = b) (by simp)

/-! General list helpers. -/

theorem insertAt_length {α : Type} (l : List α) (i : Nat) (x : α) :
    (insertAt l i x).length = l.length + 1 := by
  simp [insertAt]
  omega

theorem listModify_length {α : Type} (l : List α) (i : Nat) (f : α → α) :
    (listModify l i f).length = l.length := by
  induction l generalizing i with
  | nil => rfl
  | cons a l ih =>
    cases i with
    | zero => rfl
    | succ n => simp [listModify, ih]

theorem listModify_getElem?_self {α : Type} (l : List α) (i : Nat) (f : α → α) :
    (listModify l i f)[i]? = l[i]?.map f := by
  induction l generalizing i with
  | nil => simp [listModify]
  | cons a l ih =>
    cases i with
    | zero => simp [listModify]
    | succ n => simpa [listModify] using ih n

theorem listModify_getElem?_ne {α : Type} (l : List α) (i k : Nat) (f : α → α)
    (h : k ≠ i) : (listModify l i f)[k]? = l[k]? := by
  induction l generalizing i k with
  | nil => simp [listModify]
  | cons a l ih =>
    cases i with
    | zero =>
      cases k with
      | zero => exact absurd rfl h
      | succ m => simp [listModify]
    | succ n =>
      cases k with
      | zero => simp [listModify]
      | succ m =>
        simp only [listModify, List.getElem?_cons_succ]
        exact ih n m (fun hh => h (by rw [hh]))

theorem map_eq_self_mem {α : Type} (f : α → α) :
    ∀ (l : List α), l.map f = l → ∀ a ∈ l, f a = a := by
  intro l
  induction l with
  | nil => intro _ a ha; cases ha
  | cons b l ih =>
    intro h a ha
    simp only [List.map_cons, List.cons.injEq] at h
    rcases List.mem_cons.mp ha with rfl | ha
    · exact h.1
    · exact ih h.2 a ha

/-! Client-side normalization lemmas. -/

theorem normalizeTasks_filter_not (ts : List Task) :
    (normalizeTasks ts).filter (fun t => !t.completed) =
      ts.filter (fun t => !t.completed) := by
  simp [normalizeTasks, List.filter_append, List.filter_filter]

theorem normalizeTasks_filter_yes (ts : List Task) :
    (normalizeTasks ts).filter (fun t => t.completed) =
      ts.filter (fun t => t.completed) := by
  simp [normalizeTasks, List.filter_append, List.filter_filter]

theorem normalizeTasks_idem (ts : List Task) :
    normalizeTasks (normalizeTasks ts) = normalizeTasks ts := by
  simp [normalizeTasks, List.filter_append, List.filter_filter]

theorem normalizeTasks_partitioned (ts : List Task) :
    Partitioned (normalizeTasks ts) := by
  unfold Partitioned normalizeTasks
  apply List.pairwise_append.mpr
  refine ⟨?_, ?_, ?_⟩
  · apply List.pairwise_of_forall_mem_list
    intro a ha b _
    simp only [List.mem_filter, Bool.not_eq_eq_eq_not, Bool.not_true] at ha
    simp [ha.2]
  · apply List.pairwise_of_forall_mem_list
    intro a _ b hb
    simp only [List.mem_filter] at hb
    simp [hb.2]
  · intro a _ b hb
    simp only [List.mem_filter] at hb
    simp [hb.2]

theorem partitioned_eq_normalizeTasks (ts : List Task) (h : Partitioned ts) :
    normalizeTasks ts = ts := by
  unfold normalizeTasks
  induction ts with
  | nil => rfl
  | cons t rest ih =>
    unfold Partitioned at h
    rw [List.pairwise_cons] at h
    by_cases hc : t.completed
    · have hall : ∀ b ∈ rest, b.completed = true := fun b hb => h.1 b hb hc
      have h1 : rest.filter (fun t => !t.completed) = [] := by
        rw [List.filter_eq_nil_iff]
        intro a ha
        simp [hall a ha]
      have h2 : rest.filter (fun t => t.completed) = rest :=
        List.filter_eq_self.mpr hall
      simp [List.filter_cons, hc, h1, h2]
    · have := ih h.2
      simp only [Bool.not_eq_true] at hc
      simp only [List.filter_cons, hc, Bool.not_false, if_pos, if_neg,
        Bool.false_eq_true, ite_false, ite_true, List.cons_append]
      rw [this]

theorem partitioned_iff (ts : List Task) :
    Partitioned ts ↔ normalizeTasks ts = ts := by
  constructor
  · exact partitioned_eq_normalizeTasks ts
  · intro h
    rw [← h]
    exact normalizeTasks_partitioned ts

theorem normalizeTasks_perm (ts : List Task) : (normalizeTasks ts).Perm ts := by
  have := List.filter_append_perm (fun t => !t.completed) ts
  unfold normalizeTasks
  simpa using this

theorem normalizeTasks_length (ts : List Task) :
    (normalizeTasks ts).length = ts.length :=
  (normalizeTasks_perm ts).length_eq

/-! `persistColumns` lemmas. -/

theorem persistColumns_partitioned (cs : List Column) :
    ∀ c ∈ persistColumns cs, Partitioned c.tasks := by
  intro c hc
  rcases List.mem_map.mp hc with ⟨c0, _, rfl⟩
  exact normalizeTasks_partitioned c0.tasks

theorem persistColumns_of_partitioned (cs : List Column)
    (h : ∀ c ∈ cs, Partitioned c.tasks) : persistColumns cs = cs := by
  unfold persistColumns
  have : ∀ c ∈ cs, normalizeColumn c = c := by
    intro c hc
    unfold normalizeColumn
    rw [partitioned_eq_normalizeTasks c.tasks (h c hc)]
  rw [List.map_congr_left this]
  simp

theorem persistColumns_length (cs : List Column) :
    (persistColumns cs).length = cs.length := by
  simp [persistColumns]

theorem normalizeColumn_idem (c : Column) :
    normalizeColumn (normalizeColumn c) = normalizeColumn c := by
  simp [normalizeColumn, normalizeTasks_idem]

theorem normalizeTasks_filter_of_all (p : Task → Bool) (ts : List Task)
    (h : ∀ t ∈ ts, p t) : (normalizeTasks ts).filter p = normalizeTasks ts := by
  apply List.filter_eq_self.mpr
  intro a ha
  exact h a ((normalizeTasks_perm ts).mem_iff.mp ha)

/-- Every intent either leaves the state untouched (a discarded edit or an
invalid drop) or routes the new state through `persistColumns`. -/
theorem applyIntent_eq_or_persist (i : Intent) (cs : List Column) :
    applyIntent i cs = cs ∨ ∃ xs, applyIntent i cs = persistColumns xs := by
  cases i <;>
    simp only [applyIntent, handleColumnRename, handleRemoveColumn,
      handleRemoveTask, handleTaskEditSave, handleTaskEditSaveAndAddBelow,
      handleToggleTask, handleInsertColumn, handleDragEndMoveColumn,
      handleDragEndTaskOverTask, handleDragEndTaskOverColumn] <;>
    (repeat' split) <;>
    first
      | exact Or.inl rfl
      | exact Or.inr ⟨_, rfl⟩

theorem applyIntent_partitioned (i : Intent) (cs : List Column)
    (h : ∀ c ∈ cs, Partitioned c.tasks) :
    ∀ c ∈ applyIntent i cs, Partitioned c.tasks := by
  rcases applyIntent_eq_or_persist i cs with heq | ⟨xs, heq⟩
  · rw [heq]; exact h
  · rw [heq]; exact persistColumns_partitioned xs

/-- C1 (amended): starting from any state whose columns all satisfy the
incomplete-before-completed invariant, after any sequence of reducer intents
every column's task sequence is still partitioned; and the normalization
every mutation routes its result through is a stable partition — inside each
partition the relative order equals the pre-normalization order in which the
intent placed the tasks. -/
theorem partition_invariant_stable :
    (∀ cs, (∀ c ∈ cs, Partitioned c.tasks) →
       ∀ l, ∀ c ∈ applyIntents l cs, Partitioned c.tasks) ∧
    (∀ ts, Partitioned (normalizeTasks ts) ∧
       (normalizeTasks ts).filter (fun t => !t.completed) =
         ts.filter (fun t => !t.completed) ∧
       (normalizeTasks ts).filter (fun t => t.completed) =
         ts.filter (fun t => t.completed)) ∧
    (∀ cs, persistColumns cs =
       cs.map (fun c => { c with tasks := normalizeTasks c.tasks })) := by
  refine ⟨?_, ?_, ?_⟩
  · intro cs h l
    induction l generalizing cs with
    | nil => exact h
    | cons i l ih =>
      have hstep := applyIntent_partitioned i cs h
      exact ih (applyIntent i cs) hstep
  · intro ts
    exact ⟨normalizeTasks_partitioned ts, normalizeTasks_filter_not ts,
      normalizeTasks_filter_yes ts⟩
  · intro cs
    rfl

/-- C1 witness: the invariant holds concretely after one toggle on a
partitioned one-column board. -/
theorem partition_invariant_stable_witness :
    Partitioned (Column.mk "c" "C" [Task.mk "t" "x" false]).tasks :=
  partition_invariant_stable.1 [Column.mk "c" "C" [Task.mk "t" "x" true]]
    (by decide) [Intent.toggleTask "c" "t"]
    (Column.mk "c" "C" [Task.mk "t" "x" false]) (by decide)

/-- C1 counterexample: a same-column task move (one of the listed intents)
changes the relative order of the two incomplete tasks, so the relative order
inside a partition does not always equal the relative order before the
intent. -/
theorem partition_order_counterexample :
    ((applyIntent (Intent.moveTaskOverTask "t1" "t2")
        [Column.mk "c1" "A" [Task.mk "t1" "a" false, Task.mk "t2" "b" false]]).map
      (fun c => (c.tasks.filter (fun t => !t.completed)).map (fun t => t.id))) ≠
    ([Column.mk "c1" "A" [Task.mk "t1" "a" false, Task.mk "t2" "b" false]].map
      (fun c => (c.tasks.filter (fun t => !t.completed)).map (fun t => t.id))) := by
  decide

/-- C2 counterexample: `handleInsertColumn` takes no title argument and always
inserts a generated column, so even on the empty state the intent changes the
state instead of being a no-op. -/
theorem insertColumn_noop_counterexample :
    handleInsertColumn "col-new" "task-new" 0 [] ≠ [] := by
  decide

/-- C2 (amended): `insertColumn` always inserts exactly one column (it is
never a no-op and takes no title); the empty-after-trim no-op rule belongs to
the rename intent: renaming a column with a blank title leaves the state
unchanged. -/
theorem insertColumn_always_inserts :
    (∀ newColumnId newTaskId i cs,
       (handleInsertColumn newColumnId newTaskId i cs).length = cs.length + 1) ∧
    (∀ columnId v cs, jsTrim v = "" → handleColumnRename columnId v cs = cs) := by
  constructor
  · intro newColumnId newTaskId i cs
    unfold handleInsertColumn
    rw [persistColumns_length, insertAt_length]
  · intro columnId v cs hv
    unfold handleColumnRename
    simp [hv]

/-- C2 witness: concrete instances of both conjuncts. -/
theorem insertColumn_always_inserts_witness :
    (handleInsertColumn "a" "b" 0 []).length = ([] : List Column).length + 1 ∧
    handleColumnRename "c" "   " [] = [] :=
  ⟨insertColumn_always_inserts.1 "a" "b" 0 [],
   insertColumn_always_inserts.2 "c" "   " [] (by decide)⟩

/-- C3: `removeTask` is idempotent, also through the empty-column placeholder
branch.  `p1`/`p2` are the two runs' generated placeholder ids; a generated id
never collides with the removed task's id (`crypto.randomUUID`), which is the
`p1 ≠ taskId` hypothesis. -/
theorem removeTask_idempotent (p1 p2 columnId taskId : String)
    (cs : List Column) (h : p1 ≠ taskId) :
    handleRemoveTask p2 columnId taskId
        (handleRemoveTask p1 columnId taskId cs) =
      handleRemoveTask p1 columnId taskId cs := by
  unfold handleRemoveTask persistColumns
  simp only [List.map_map]
  apply List.map_congr_left
  intro c _
  simp only [Function.comp_apply]
  by_cases hc : (c.id == columnId) = true
  · simp only [hc, if_pos]
    by_cases hlen : (c.tasks.filter (fun task => task.id != taskId)).length > 0
    · simp only [hlen, if_pos]
      have hid : (normalizeColumn
          { c with tasks := c.tasks.filter (fun task => task.id != taskId) }).id
            = c.id := rfl
      simp only [normalizeColumn, hc, if_pos]
      have hfil : (normalizeTasks (c.tasks.filter (fun task => task.id != taskId))).filter
          (fun task => task.id != taskId) =
            normalizeTasks (c.tasks.filter (fun task => task.id != taskId)) := by
        apply normalizeTasks_filter_of_all
        intro t ht
        exact (List.mem_filter.mp ht).2
      rw [hfil]
      rw [normalizeTasks_length]
      simp only [hlen, if_pos]
      rw [normalizeTasks_idem]
    · have hP : normalizeTasks [Task.mk p1 "New task" false] =
          [Task.mk p1 "New task" false] := by
        simp [normalizeTasks]
      have hfil : (([Task.mk p1 "New task" false]).filter
          (fun task => task.id != taskId)) = [Task.mk p1 "New task" false] := by
        simp [List.filter_cons, h]
      have hceq : c.id = columnId := beq_iff_eq.mp hc
      simp only [hlen, if_neg, if_false, ite_false, hP, hfil]
      simp [normalizeColumn, hceq, hP, hfil]
  · simp only [hc]
    simp only [Bool.false_eq_true, if_neg, if_false]
    have hid : (normalizeColumn c).id = c.id := rfl
    simp only [normalizeColumn, hc]
    simp only [Bool.false_eq_true, if_neg, if_false]
    rw [normalizeTasks_idem]

/-- C3 witness: removing the only task of a column twice equals removing it
once. -/
theorem removeTask_idempotent_witness :
    handleRemoveTask "p2" "c" "t"
        (handleRemoveTask "p1" "c" "t" [Column.mk "c" "C" [Task.mk "t" "x" false]]) =
      handleRemoveTask "p1" "c" "t" [Column.mk "c" "C" [Task.mk "t" "x" false]] :=
  removeTask_idempotent "p1" "p2" "c" "t" [Column.mk "c" "C" [Task.mk "t" "x" false]]
    (by decide)

/-- C10: `removeTask` leaves the addressed column non-empty: when the removal
empties the column, exactly one fresh placeholder task
`{id := placeholderId, text := "New task", completed := false}` takes its
place; columns the handler does not address keep their task count. -/
theorem removeTask_never_empties :
    (∀ (p columnId taskId : String) (cs : List Column),
       (handleRemoveTask p columnId taskId cs).length = cs.length) ∧
    (∀ (p columnId taskId : String) (cs : List Column) (k : Nat) (c c2 : Column),
       cs[k]? = some c → c.id = columnId →
       (handleRemoveTask p columnId taskId cs)[k]? = some c2 →
       c2.tasks ≠ [] ∧
       (c.tasks.filter (fun task => task.id != taskId) = [] →
         c2.tasks = [Task.mk p "New task" false])) ∧
    (∀ (p columnId taskId : String) (cs : List Column) (k : Nat) (c c2 : Column),
       cs[k]? = some c → c.id ≠ columnId →
       (handleRemoveTask p columnId taskId cs)[k]? = some c2 →
       c2.tasks.length = c.tasks.length) := by
  refine ⟨?_, ?_, ?_⟩
  · intro p columnId taskId cs
    unfold handleRemoveTask
    rw [persistColumns_length, List.length_map]
  · intro p columnId taskId cs k c c2 hk hc hk2
    unfold handleRemoveTask persistColumns at hk2
    rw [List.map_map, List.getElem?_map, hk, Option.map_some'] at hk2
    injection hk2 with hk2
    subst hk2
    have hcb : (c.id == columnId) = true := beq_iff_eq.mpr hc
    simp only [Function.comp_apply, hcb, if_pos]
    by_cases hlen : (c.tasks.filter (fun task => task.id != taskId)).length > 0
    · simp only [hlen, if_pos]
      constructor
      · intro hnil
        have : (normalizeTasks (c.tasks.filter (fun task => task.id != taskId))).length = 0 := by
          simp [normalizeColumn] at hnil
          rw [hnil]
          rfl
        rw [normalizeTasks_length] at this
        omega
      · intro hempty
        rw [hempty] at hlen
        simp at hlen
    · simp only [hlen, if_neg]
      refine ⟨?_, ?_⟩
      · simp [normalizeColumn, normalizeTasks]
      · intro _
        simp [normalizeColumn, normalizeTasks]
  · intro p columnId taskId cs k c c2 hk hc hk2
    unfold handleRemoveTask persistColumns at hk2
    rw [List.map_map, List.getElem?_map, hk, Option.map_some'] at hk2
    injection hk2 with hk2
    subst hk2
    have hcb : (c.id == columnId) = false := by
      simp [hc]
    simp only [Function.comp_apply, hcb]
    simp only [Bool.false_eq_true, if_neg, if_false]
    simp [normalizeColumn, normalizeTasks_length]

/-- C10 witness: removing the only task leaves the placeholder; an untouched
column keeps its task count. -/
theorem removeTask_never_empties_witness :
    (handleRemoveTask "p" "c" "t"
        [Column.mk "c" "C" [Task.mk "t" "x" false]]).length =
      ([Column.mk "c" "C" [Task.mk "t" "x" false]] : List Column).length ∧
    ((Column.mk "c" "C" [Task.mk "p" "New task" false]).tasks ≠ [] ∧
      ((Column.mk "c" "C" [Task.mk "t" "x" false]).tasks.filter
          (fun task => task.id != "t") = [] →
        (Column.mk "c" "C" [Task.mk "p" "New task" false]).tasks =
          [Task.mk "p" "New task" false])) :=
  ⟨removeTask_never_empties.1 "p" "c" "t" [Column.mk "c" "C" [Task.mk "t" "x" false]],
   removeTask_never_empties.2.1 "p" "c" "t"
     [Column.mk "c" "C" [Task.mk "t" "x" false]] 0
     (Column.mk "c" "C" [Task.mk "t" "x" false])
     (Column.mk "c" "C" [Task.mk "p" "New task" false])
     (by decide) (by decide) (by decide)⟩

/-- C4: toggling flips the addressed task's completed flag, then re-partitions
that column while preserving relative order within each partition; on a state
satisfying the order invariant no other column changes.  The last conjunct is
the concrete scenario: toggling `t1` in `[t1(false), t2(false)]` yields
`[t2(false), t1(true)]`. -/
theorem toggleTask_spec :
    (∀ (columnId taskId : String) (cs : List Column),
       (∀ c ∈ cs, Partitioned c.tasks) →
       handleToggleTask columnId taskId cs =
         cs.map (fun c =>
           if c.id == columnId then
             { c with tasks := normalizeTasks (c.tasks.map (fun task =>
                 if task.id == taskId then { task with completed := !task.completed }
                 else task)) }
           else c)) ∧
    (∀ (taskId : String) (ts : List Task),
       Partitioned (normalizeTasks (ts.map (fun task =>
         if task.id == taskId then { task with completed := !task.completed }
         else task))) ∧
       (normalizeTasks (ts.map (fun task =>
           if task.id == taskId then { task with completed := !task.completed }
           else task))).filter (fun t => !t.completed) =
         (ts.map (fun task =>
           if task.id == taskId then { task with completed := !task.completed }
           else task)).filter (fun t => !t.completed) ∧
       (normalizeTasks (ts.map (fun task =>
           if task.id == taskId then { task with completed := !task.completed }
           else task))).filter (fun t => t.completed) =
         (ts.map (fun task =>
           if task.id == taskId then { task with completed := !task.completed }
           else task)).filter (fun t => t.completed)) ∧
    (handleToggleTask "c1" "t1"
        [Column.mk "c1" "Col" [Task.mk "t1" "a" false, Task.mk "t2" "b" false]] =
      [Column.mk "c1" "Col" [Task.mk "t2" "b" false, Task.mk "t1" "a" true]]) := by
  refine ⟨?_, ?_, by decide⟩
  · intro columnId taskId cs h
    unfold handleToggleTask persistColumns
    rw [List.map_map]
    apply List.map_congr_left
    intro c hc
    simp only [Function.comp_apply, bne]
    by_cases hid : (c.id == columnId) = true
    · simp only [hid, Bool.not_true, Bool.false_eq_true, if_neg, if_false,
        if_pos, ite_true, ite_false]
      simp only [normalizeColumn, normalizeTasks_idem]
    · simp only [Bool.not_eq_true] at hid
      simp only [hid, Bool.not_false, ite_true, Bool.false_eq_true, ite_false]
      simp only [normalizeColumn, partitioned_eq_normalizeTasks c.tasks (h c hc)]
  · intro taskId ts
    exact ⟨normalizeTasks_partitioned _, normalizeTasks_filter_not _,
      normalizeTasks_filter_yes _⟩

/-- C4 witness: the frame/flip description instantiated on a concrete
partitioned two-column state. -/
theorem toggleTask_spec_witness :
    handleToggleTask "c1" "t1"
        [Column.mk "c1" "A" [Task.mk "t1" "x" false],
         Column.mk "c2" "B" [Task.mk "t2" "y" true]] =
      [Column.mk "c1" "A" [Task.mk "t1" "x" false],
       Column.mk "c2" "B" [Task.mk "t2" "y" true]].map (fun c =>
        if c.id == "c1" then
          { c with tasks := normalizeTasks (c.tasks.map (fun task =>
              if task.id == "t1" then { task with completed := !task.completed }
              else task)) }
        else c) :=
  toggleTask_spec.1 "c1" "t1"
    [Column.mk "c1" "A" [Task.mk "t1" "x" false],
     Column.mk "c2" "B" [Task.mk "t2" "y" true]] (by decide)

/-! Lemmas about removing from and inserting at the active-region boundary of
a partitioned task list. -/

theorem partitioned_eraseIdx (ts : List Task) (i : Nat) (h : Partitioned ts) :
    Partitioned (ts.eraseIdx i) :=
  List.Pairwise.sublist (List.eraseIdx_sublist ts i) h

theorem partitioned_decomp (ts : List Task) (h : Partitioned ts) :
    ts = ts.filter (fun t => !t.completed) ++ ts.filter (fun t => t.completed) :=
  (partitioned_eq_normalizeTasks ts h).symm

theorem insertAt_append_length {α : Type} (A B : List α) (x : α) :
    insertAt (A ++ B) A.length x = A ++ x :: B := by
  unfold insertAt
  rw [List.take_left, List.drop_left]

theorem insertAt_boundary_eq (ts : List Task) (x : Task) (h : Partitioned ts) :
    insertAt ts (ts.countP (fun t => !t.completed)) x =
      ts.filter (fun t => !t.completed) ++
        x :: ts.filter (fun t => t.completed) := by
  have hcount : ts.countP (fun t => !t.completed) =
      (ts.filter (fun t => !t.completed)).length :=
    List.countP_eq_length_filter _ _
  obtain ⟨A, B, hA, hB, hts⟩ :
      ∃ A B, A = ts.filter (fun t => !t.completed) ∧
        B = ts.filter (fun t => t.completed) ∧ ts = A ++ B :=
    ⟨_, _, rfl, rfl, partitioned_decomp ts h⟩
  rw [hcount, ← hA, ← hB, hts]
  exact insertAt_append_length A B x

theorem partitioned_insertAt_boundary (ts : List Task) (x : Task)
    (h : Partitioned ts) :
    Partitioned (insertAt ts (ts.countP (fun t => !t.completed)) x) := by
  rw [insertAt_boundary_eq ts x h]
  unfold Partitioned
  apply List.pairwise_append.mpr
  refine ⟨?_, ?_, ?_⟩
  · exact List.Pairwise.sublist (List.filter_sublist ts) h
  · rw [List.pairwise_cons]
    constructor
    · intro b hb _
      exact (List.mem_filter.mp hb).2
    · exact List.Pairwise.sublist (List.filter_sublist ts) h
  · intro a ha b hb hcomp
    rcases List.mem_cons.mp hb with rfl | hb
    · have := (List.mem_filter.mp ha).2
      simp only [Bool.not_eq_eq_eq_not, Bool.not_true] at this
      rw [this] at hcomp
      cases hcomp
    · exact (List.mem_filter.mp hb).2

theorem insertAt_boundary_getElem (ts : List Task) (x : Task)
    (h : Partitioned ts) :
    (insertAt ts (ts.countP (fun t => !t.completed)) x)[
      ts.countP (fun t => !t.completed)]? = some x := by
  rw [insertAt_boundary_eq ts x h]
  have hcount : ts.countP (fun t => !t.completed) =
      (ts.filter (fun t => !t.completed)).length :=
    List.countP_eq_length_filter _ _
  rw [hcount, List.getElem?_append_right (Nat.le_refl _), Nat.sub_self]
  simp

theorem insertAt_boundary_countP (ts : List Task) (x : Task)
    (h : Partitioned ts) (hx : x.completed = false) :
    (insertAt ts (ts.countP (fun t => !t.completed)) x).countP
        (fun t => !t.completed) =
      ts.countP (fun t => !t.completed) + 1 := by
  rw [insertAt_boundary_eq ts x h]
  rw [List.countP_append, List.countP_cons_of_pos]
  · have h1 : (ts.filter (fun t => !t.completed)).countP
        (fun t => !t.completed) = (ts.filter (fun t => !t.completed)).length := by
      apply List.countP_eq_length.mpr
      intro a ha
      exact (List.mem_filter.mp ha).2
    have h2 : (ts.filter (fun t => t.completed)).countP
        (fun t => !t.completed) = 0 := by
      apply List.countP_eq_zero.mpr
      intro a ha
      simp [(List.mem_filter.mp ha).2]
    rw [h1, h2, List.countP_eq_length_filter]
  · simp [hx]

/-- C5: dropping a task on a different column removes it from its source
column and inserts it at the boundary of the target column's completed
group — position = number of incomplete tasks; an incomplete task therefore
lands inside the active region (only incomplete tasks are draggable in the
source UI).  The last conjunct is the concrete scenario
`[{Backlog:[T1,T2]}, {Done:[]}]` + `moveTask(T1, Done)`. -/
theorem moveTaskToColumn_spec :
    (∀ (taskId targetColumnId : String) (cs : List Column)
       (sci sti tci : Nat) (srcCol tgtCol : Column) (tsk : Task),
       (∀ c ∈ cs, Partitioned c.tasks) →
       findTaskLocationInColumns cs taskId = some (sci, sti) →
       cs.findIdx? (fun c => c.id == targetColumnId) = some tci →
       tci ≠ sci →
       cs[sci]? = some srcCol →
       srcCol.tasks[sti]? = some tsk →
       cs[tci]? = some tgtCol →
       (handleDragEndTaskOverColumn taskId targetColumnId cs).length =
           cs.length ∧
       (∀ k, k ≠ sci → k ≠ tci →
          (handleDragEndTaskOverColumn taskId targetColumnId cs)[k]? =
            cs[k]?) ∧
       (handleDragEndTaskOverColumn taskId targetColumnId cs)[sci]? =
         some { srcCol with tasks := srcCol.tasks.eraseIdx sti } ∧
       (handleDragEndTaskOverColumn taskId targetColumnId cs)[tci]? =
         some { tgtCol with
           tasks := insertAt tgtCol.tasks
             (tgtCol.tasks.countP (fun t => !t.completed)) tsk } ∧
       (insertAt tgtCol.tasks
           (tgtCol.tasks.countP (fun t => !t.completed)) tsk)[
         tgtCol.tasks.countP (fun t => !t.completed)]? = some tsk ∧
       (tsk.completed = false →
         tgtCol.tasks.countP (fun t => !t.completed) <
           (insertAt tgtCol.tasks
             (tgtCol.tasks.countP (fun t => !t.completed)) tsk).countP
               (fun t => !t.completed))) ∧
    (handleDragEndTaskOverColumn "t1" "done"
        [Column.mk "backlog" "Backlog"
          [Task.mk "t1" "T1" false, Task.mk "t2" "T2" false],
         Column.mk "done" "Done" []] =
      [Column.mk "backlog" "Backlog" [Task.mk "t2" "T2" false],
       Column.mk "done" "Done" [Task.mk "t1" "T1" false]]) := by
  refine ⟨?_, by decide⟩
  intro taskId targetColumnId cs sci sti tci srcCol tgtCol tsk hpart hloc hfind
    hne hsrc htask htgt
  have hsrcmem : srcCol ∈ cs := List.mem_iff_getElem?.mpr ⟨sci, hsrc⟩
  have htgtmem : tgtCol ∈ cs := List.mem_iff_getElem?.mpr ⟨tci, htgt⟩
  have hsrcPart := hpart srcCol hsrcmem
  have htgtPart := hpart tgtCol htgtmem
  set gE : Column → Column :=
    fun c => { c with tasks := c.tasks.eraseIdx sti } with hgE
  set gI : Column → Column :=
    fun c => { c with
      tasks := insertAt c.tasks (c.tasks.countP (fun t => !t.completed)) tsk }
    with hgI
  set X := listModify cs sci gE with hXdef
  set Y := listModify X tci gI with hYdef
  have hne' : (tci == sci) = false := beq_eq_false_iff_ne.mpr hne
  have hred : handleDragEndTaskOverColumn taskId targetColumnId cs =
      persistColumns Y := by
    rw [hYdef, hXdef, hgE, hgI]
    unfold handleDragEndTaskOverColumn
    rw [hloc, hfind]
    simp only [hne', Bool.false_eq_true, if_false, ite_false]
    rw [hsrc]
    simp only [Option.some_bind, htask]
  have hXsrcGet : X[sci]? =
      some { srcCol with tasks := srcCol.tasks.eraseIdx sti } := by
    rw [hXdef, listModify_getElem?_self, hsrc, Option.map_some']
  have hXtgtGet : X[tci]? = cs[tci]? :=
    hXdef ▸ listModify_getElem?_ne cs sci tci gE hne
  have hYsrcGet : Y[sci]? = X[sci]? :=
    hYdef ▸ listModify_getElem?_ne X tci sci gI (fun hh => hne hh.symm)
  have hYtgtGet : Y[tci]? =
      some { tgtCol with
        tasks := insertAt tgtCol.tasks
          (tgtCol.tasks.countP (fun t => !t.completed)) tsk } := by
    rw [hYdef, listModify_getElem?_self, hXtgtGet, htgt, Option.map_some']
  have hYother : ∀ k, k ≠ sci → k ≠ tci → Y[k]? = cs[k]? := by
    intro k h1 h2
    rw [hYdef, listModify_getElem?_ne X tci k gI h2,
      hXdef, listModify_getElem?_ne cs sci k gE h1]
  have hYlen : Y.length = cs.length := by
    rw [hYdef, listModify_length, hXdef, listModify_length]
  have hYpart : ∀ c ∈ Y, Partitioned c.tasks := by
    intro c hc
    rcases List.mem_iff_getElem?.mp hc with ⟨k, hk⟩
    by_cases hk1 : k = sci
    · subst hk1
      rw [hYsrcGet, hXsrcGet] at hk
      injection hk with hk
      subst hk
      exact partitioned_eraseIdx srcCol.tasks sti hsrcPart
    · by_cases hk2 : k = tci
      · subst hk2
        rw [hYtgtGet] at hk
        injection hk with hk
        subst hk
        exact partitioned_insertAt_boundary tgtCol.tasks tsk htgtPart
      · rw [hYother k hk1 hk2] at hk
        exact hpart c (List.mem_iff_getElem?.mpr ⟨k, hk⟩)
  have hpersist : persistColumns Y = Y := persistColumns_of_partitioned Y hYpart
  rw [hred, hpersist]
  refine ⟨hYlen, hYother, by rw [hYsrcGet, hXsrcGet], hYtgtGet,
    insertAt_boundary_getElem tgtCol.tasks tsk htgtPart, ?_⟩
  intro hx
  rw [insertAt_boundary_countP tgtCol.tasks tsk htgtPart hx]
  omega

/-- C5 witness: the general statement instantiated at the Scenario A state. -/
theorem moveTaskToColumn_spec_witness :
    (handleDragEndTaskOverColumn "t1" "done"
        [Column.mk "backlog" "Backlog"
          [Task.mk "t1" "T1" false, Task.mk "t2" "T2" false],
         Column.mk "done" "Done" []]).length =
      ([Column.mk "backlog" "Backlog"
          [Task.mk "t1" "T1" false, Task.mk "t2" "T2" false],
        Column.mk "done" "Done" []] : List Column).length ∧
    (∀ k, k ≠ 0 → k ≠ 1 →
       (handleDragEndTaskOverColumn "t1" "done"
          [Column.mk "backlog" "Backlog"
            [Task.mk "t1" "T1" false, Task.mk "t2" "T2" false],
           Column.mk "done" "Done" []])[k]? =
         ([Column.mk "backlog" "Backlog"
            [Task.mk "t1" "T1" false, Task.mk "t2" "T2" false],
           Column.mk "done" "Done" []] : List Column)[k]?) ∧
    (handleDragEndTaskOverColumn "t1" "done"
        [Column.mk "backlog" "Backlog"
          [Task.mk "t1" "T1" false, Task.mk "t2" "T2" false],
         Column.mk "done" "Done" []])[0]? =
      some { Column.mk "backlog" "Backlog"
          [Task.mk "t1" "T1" false, Task.mk "t2" "T2" false] with
        tasks := (Column.mk "backlog" "Backlog"
          [Task.mk "t1" "T1" false, Task.mk "t2" "T2" false]).tasks.eraseIdx 0 } ∧
    (handleDragEndTaskOverColumn "t1" "done"
        [Column.mk "backlog" "Backlog"
          [Task.mk "t1" "T1" false, Task.mk "t2" "T2" false],
         Column.mk "done" "Done" []])[1]? =
      some { Column.mk "done" "Done" [] with
        tasks := insertAt (Column.mk "done" "Done" []).tasks
          ((Column.mk "done" "Done" []).tasks.countP (fun t => !t.completed))
          (Task.mk "t1" "T1" false) } ∧
    (insertAt (Column.mk "done" "Done" []).tasks
        ((Column.mk "done" "Done" []).tasks.countP (fun t => !t.completed))
        (Task.mk "t1" "T1" false))[
      (Column.mk "done" "Done" []).tasks.countP (fun t => !t.completed)]? =
      some (Task.mk "t1" "T1" false) ∧
    ((Task.mk "t1" "T1" false).completed = false →
      (Column.mk "done" "Done" []).tasks.countP (fun t => !t.completed) <
        (insertAt (Column.mk "done" "Done" []).tasks
          ((Column.mk "done" "Done" []).tasks.countP (fun t => !t.completed))
          (Task.mk "t1" "T1" false)).countP (fun t => !t.completed)) :=
  moveTaskToColumn_spec.1 "t1" "done"
    [Column.mk "backlog" "Backlog"
      [Task.mk "t1" "T1" false, Task.mk "t2" "T2" false],
     Column.mk "done" "Done" []] 0 0 1
    (Column.mk "backlog" "Backlog"
      [Task.mk "t1" "T1" false, Task.mk "t2" "T2" false])
    (Column.mk "done" "Done" []) (Task.mk "t1" "T1" false)
    (by decide) (by decide) (by decide) (by decide) (by decide) (by decide)
    (by decide)

/-! Server-side helper lemmas. -/

theorem find?_cons_eq {α : Type} (p : α → Bool) (a : α) (l : List α) :
    (a :: l).find? p = if p a then some a else l.find? p := by
  cases h : p a <;> simp [List.find?, h]

theorem find?_map_patch (bid : Nat) (f : BoardDoc → BoardDoc)
    (hf : ∀ x, (f x).id = x.id) :
    ∀ (l : List BoardDoc) (b : BoardDoc),
      l.find? (fun x => x.id == bid) = some b →
      (l.map (fun x => if x.id == bid then f x else x)).find?
          (fun x => x.id == bid) = some (f b) := by
  intro l
  induction l with
  | nil => intro b h; cases h
  | cons a l ih =>
    intro b h
    rw [find?_cons_eq] at h
    simp only [List.map_cons]
    rw [find?_cons_eq]
    by_cases ha : (a.id == bid) = true
    · rw [if_pos ha] at h
      injection h with h
      subst h
      have hfa : ((if (a.id == bid) = true then f a else a).id == bid) = true := by
        rw [if_pos ha, hf a]
        exact ha
      rw [if_pos hfa, if_pos ha]
    · rw [if_neg ha] at h
      have hfa : ((if (a.id == bid) = true then f a else a).id == bid) = false := by
        rw [if_neg ha]
        simpa using ha
      rw [if_neg (by rw [hfa]; simp)]
      exact ih b h

theorem mem_map_patch_of_ne (bid : Nat) (f : BoardDoc → BoardDoc)
    (l : List BoardDoc) (b2 : BoardDoc) (hb : b2 ∈ l) (hne : b2.id ≠ bid) :
    b2 ∈ l.map (fun x => if x.id == bid then f x else x) := by
  apply List.mem_map.mpr
  refine ⟨b2, hb, ?_⟩
  simp [hne]

theorem pairwise_ne_id_eq (l : List BoardDoc)
    (hu : l.Pairwise (fun a b => a.id ≠ b.id)) (a b : BoardDoc)
    (ha : a ∈ l) (hb : b ∈ l) (hid : a.id = b.id) : a = b := by
  induction l with
  | nil => cases ha
  | cons x l ih =>
    rw [List.pairwise_cons] at hu
    rcases List.mem_cons.mp ha with rfl | ha2
    · rcases List.mem_cons.mp hb with rfl | hb2
      · rfl
      · exact absurd hid (hu.1 b hb2)
    · rcases List.mem_cons.mp hb with rfl | hb2
      · exact absurd hid.symm (hu.1 a ha2)
      · exact ih hu.2 ha2 hb2

theorem partitionS_filter_not (ts : List STask) :
    (partitionS ts).filter (fun t => !(t.completed.getD false)) =
      ts.filter (fun t => !(t.completed.getD false)) := by
  simp [partitionS, List.filter_append, List.filter_filter]

theorem partitionS_filter_yes (ts : List STask) :
    (partitionS ts).filter (fun t => t.completed.getD false) =
      ts.filter (fun t => t.completed.getD false) := by
  simp [partitionS, List.filter_append, List.filter_filter]

theorem partitionS_idem (ts : List STask) :
    partitionS (partitionS ts) = partitionS ts := by
  simp [partitionS, List.filter_append, List.filter_filter]

theorem partitionedS_partitionS (ts : List STask) :
    PartitionedS (partitionS ts) := by
  unfold PartitionedS partitionS
  apply List.pairwise_append.mpr
  refine ⟨?_, ?_, ?_⟩
  · apply List.pairwise_of_forall_mem_list
    intro a ha b _
    have := (List.mem_filter.mp ha).2
    simp only [Bool.not_eq_eq_eq_not, Bool.not_true] at this
    intro hcomp
    rw [this] at hcomp
    cases hcomp
  · apply List.pairwise_of_forall_mem_list
    intro a _ b hb _
    exact (List.mem_filter.mp hb).2
  · intro a _ b hb _
    exact (List.mem_filter.mp hb).2

theorem withDefaults_of_defined (ts : List STask)
    (h : ∀ t ∈ ts, t.completed.isSome = true) : withDefaults ts = ts := by
  unfold withDefaults
  have : ∀ t ∈ ts, ({ t with completed := some (t.completed.getD false) } : STask) = t := by
    intro t ht
    rcases Option.isSome_iff_exists.mp (h t ht) with ⟨b, hb⟩
    rw [hb]
    simp only [Option.getD_some]
    rw [← hb]
  rw [List.map_congr_left this]
  simp

theorem withDefaults_defined (ts : List STask) :
    ∀ t ∈ withDefaults ts, t.completed.isSome = true := by
  intro t ht
  rcases List.mem_map.mp ht with ⟨t0, _, rfl⟩
  rfl

theorem partitionS_mem (ts : List STask) (t : STask) (h : t ∈ partitionS ts) :
    t ∈ ts := by
  rcases List.mem_append.mp h with h2 | h2
  · exact List.mem_of_mem_filter h2
  · exact List.mem_of_mem_filter h2

theorem withDefaults_partitionS_withDefaults (ts : List STask) :
    withDefaults (partitionS (withDefaults ts)) = partitionS (withDefaults ts) := by
  apply withDefaults_of_defined
  intro t ht
  exact withDefaults_defined ts t (partitionS_mem _ t ht)

theorem normalizeColumns_idem (cols : List SColumn) :
    normalizeColumns (normalizeColumns cols) = normalizeColumns cols := by
  unfold normalizeColumns
  rw [List.map_map]
  apply List.map_congr_left
  intro c _
  simp only [Function.comp_apply]
  rw [withDefaults_partitionS_withDefaults, partitionS_idem]

/-- C6: `renameBoard` errors on a missing board and on a name that trims to
empty (the store is unchanged in both cases — an error carries no store), and
on success stores exactly the trimmed name, touching nothing else.  The
fourth conjunct is Scenario E (`renameBoard(id, "   ")` rejected). -/
theorem renameBoard_spec :
    (∀ (st : Store) (bid : Nat) (nm : String),
       findBoardDoc st bid = none →
       renameBoard bid nm st = .error "Board not found") ∧
    (∀ (st : Store) (bid : Nat) (nm : String) (b : BoardDoc),
       findBoardDoc st bid = some b → jsTrim nm = "" →
       renameBoard bid nm st = .error "Board name is required") ∧
    (∀ (st : Store) (bid : Nat) (nm : String) (b : BoardDoc),
       findBoardDoc st bid = some b → jsTrim nm ≠ "" →
       (renameBoard bid nm st).isOk = true) ∧
    (∀ (st : Store) (bid : Nat) (nm : String) (b : BoardDoc) (st2 : Store),
       findBoardDoc st bid = some b → jsTrim nm ≠ "" →
       renameBoard bid nm st = .ok st2 →
       findBoardDoc st2 bid = some { b with name := some (jsTrim nm) } ∧
       st2.boards.length = st.boards.length ∧
       (∀ b2 ∈ st.boards, b2.id ≠ bid → b2 ∈ st2.boards)) ∧
    (∀ (st : Store) (bid : Nat) (b : BoardDoc),
       findBoardDoc st bid = some b →
       renameBoard bid "   " st = .error "Board name is required") := by
  refine ⟨?_, ?_, ?_, ?_, ?_⟩
  · intro st bid nm h
    unfold renameBoard
    rw [h]
  · intro st bid nm b h htrim
    unfold renameBoard
    rw [h]
    simp [htrim]
  · intro st bid nm b h htrim
    unfold renameBoard
    rw [h]
    simp [htrim, Except.isOk, Except.toBool]
  · intro st bid nm b st2 h htrim hok
    unfold renameBoard at hok
    rw [h] at hok
    simp only [htrim, if_neg, ite_false] at hok
    injection hok with hok
    subst hok
    refine ⟨?_, ?_, ?_⟩
    · have := find?_map_patch bid
        (fun x => { x with name := some (jsTrim nm) }) (fun x => rfl)
        st.boards b h
      simpa [findBoardDoc, patchBoard] using this
    · simp [patchBoard]
    · intro b2 hb2 hne
      have := mem_map_patch_of_ne bid
        (fun x => { x with name := some (jsTrim nm) }) st.boards b2 hb2 hne
      simpa [patchBoard] using this
  · intro st bid b h
    unfold renameBoard
    rw [h]
    have : jsTrim "   " = "" := by decide
    simp [this]

/-- C6 witness: all five conjuncts instantiated on a one-board store. -/
theorem renameBoard_spec_witness :
    renameBoard 0 "   " (Store.mk [] 0 0) = .error "Board not found" ∧
    renameBoard 0 " " (Store.mk [BoardDoc.mk 0 (some "B") none []] 1 0) =
      .error "Board name is required" ∧
    (renameBoard 0 " N " (Store.mk [BoardDoc.mk 0 (some "B") none []] 1 0)).isOk
      = true ∧
    (findBoardDoc (Store.mk [BoardDoc.mk 0 (some "N") none []] 1 0) 0 =
       some { BoardDoc.mk 0 (some "B") none [] with
         name := some (jsTrim " N ") } ∧
     (Store.mk [BoardDoc.mk 0 (some "N") none []] 1 0).boards.length =
       (Store.mk [BoardDoc.mk 0 (some "B") none []] 1 0).boards.length ∧
     (∀ b2 ∈ (Store.mk [BoardDoc.mk 0 (some "B") none []] 1 0).boards,
        b2.id ≠ 0 →
        b2 ∈ (Store.mk [BoardDoc.mk 0 (some "N") none []] 1 0).boards)) ∧
    renameBoard 0 "   " (Store.mk [BoardDoc.mk 0 (some "B") none []] 1 0) =
      .error "Board name is required" :=
  ⟨renameBoard_spec.1 (Store.mk [] 0 0) 0 "   " (by decide),
   renameBoard_spec.2.1 (Store.mk [BoardDoc.mk 0 (some "B") none []] 1 0) 0 " "
     (BoardDoc.mk 0 (some "B") none []) (by decide) (by decide),
   renameBoard_spec.2.2.1 (Store.mk [BoardDoc.mk 0 (some "B") none []] 1 0) 0
     " N " (BoardDoc.mk 0 (some "B") none []) (by decide) (by decide),
   renameBoard_spec.2.2.2.1 (Store.mk [BoardDoc.mk 0 (some "B") none []] 1 0) 0
     " N " (BoardDoc.mk 0 (some "B") none [])
     (Store.mk [BoardDoc.mk 0 (some "N") none []] 1 0) (by decide) (by decide)
     (by decide),
   renameBoard_spec.2.2.2.2 (Store.mk [BoardDoc.mk 0 (some "B") none []] 1 0) 0
     (BoardDoc.mk 0 (some "B") none []) (by decide)⟩

/-- C7: `toggleTaskCompleted` raises on a missing board (and, the mutation
aborting, leaves the store unchanged); when the board exists but the column
or the task is absent it is a silent no-op — no error, the stored board (in
particular its columns) unchanged.  The no-op direction is stated on stores
satisfying the reachable-state invariant (unique board ids, columns stored in
normalized form; every write path of convex/board.ts stores normalized
columns). -/
theorem toggleTaskCompleted_spec :
    (∀ (st : Store) (bid : Nat) (cid tid : String) (cpl : Bool),
       findBoardDoc st bid = none →
       toggleTaskCompleted bid cid tid cpl st = .error "Board not found") ∧
    (∀ (st : Store) (bid : Nat) (cid tid : String) (cpl : Bool)
       (board : BoardDoc),
       st.boards.Pairwise (fun a b => a.id ≠ b.id) →
       findBoardDoc st bid = some board →
       normalizeColumns board.columns = board.columns →
       (∀ col ∈ board.columns, col.id = cid → ∀ t ∈ col.tasks, t.id ≠ tid) →
       toggleTaskCompleted bid cid tid cpl st = .ok st) := by
  constructor
  · intro st bid cid tid cpl h
    unfold toggleTaskCompleted
    rw [h]
  · intro st bid cid tid cpl board hu hfind hnorm habsent
    unfold toggleTaskCompleted
    rw [hfind]
    dsimp only
    rw [hnorm]
    have hpoint : ∀ col ∈ board.columns,
        (if col.id != cid then col
         else { col with tasks := partitionS (col.tasks.map (fun t =>
           if t.id == tid then { t with completed := some cpl } else t)) }) =
        col := by
      intro col hcol
      by_cases hcid : (col.id == cid) = true
      · have hisid : col.id = cid := beq_iff_eq.mp hcid
        have hnotask : ∀ t ∈ col.tasks, t.id ≠ tid := habsent col hcol hisid
        have hmapid : col.tasks.map (fun t =>
            if t.id == tid then { t with completed := some cpl } else t) =
            col.tasks := by
          have : ∀ t ∈ col.tasks,
              (if t.id == tid then ({ t with completed := some cpl } : STask)
               else t) = t := by
            intro t ht
            rw [if_neg (by simp [hnotask t ht])]
          rw [List.map_congr_left this]
          simp
        have hcoltasks : partitionS (withDefaults col.tasks) = col.tasks := by
          have := map_eq_self_mem _ board.columns hnorm col hcol
          exact congrArg SColumn.tasks this
        have hpart : partitionS col.tasks = col.tasks := by
          conv_lhs => rw [← hcoltasks]
          rw [partitionS_idem, hcoltasks]
        simp only [bne, hcid, Bool.not_true, Bool.false_eq_true, if_neg,
          ite_false, hmapid, hpart]
      · have : (col.id != cid) = true := by
          simp only [bne]
          simp [hcid]
        rw [if_pos this]
    have hcols : List.map (fun column =>
        if column.id != cid then column
        else { column with tasks := partitionS (column.tasks.map (fun t =>
          if t.id == tid then { t with completed := some cpl } else t)) })
        board.columns = board.columns := by
      rw [List.map_congr_left hpoint]
      simp
    rw [hcols]
    have hb_mem : board ∈ st.boards := List.mem_of_find?_eq_some hfind
    have hb_id : board.id = bid := by
      have := List.find?_some hfind
      exact beq_iff_eq.mp this
    have hpatch : patchBoard st bid (fun b => { b with columns := board.columns })
        = st := by
      unfold patchBoard
      have hmap : st.boards.map (fun b =>
          if b.id == bid then { b with columns := board.columns } else b) =
          st.boards := by
        have : ∀ b2 ∈ st.boards,
            (if b2.id == bid then ({ b2 with columns := board.columns } : BoardDoc)
             else b2) = b2 := by
          intro b2 hb2
          by_cases hbid : (b2.id == bid) = true
          · have : b2 = board :=
              pairwise_ne_id_eq st.boards hu b2 board hb2 hb_mem
                (by rw [beq_iff_eq.mp hbid, hb_id])
            subst this
            rw [if_pos hbid]
          · rw [if_neg hbid]
        rw [List.map_congr_left this]
        simp
      rw [hmap]
    rw [hpatch]

/-- C7 witness: missing board errors; absent column id on a normalized
one-board store is a silent no-op returning the unchanged store. -/
theorem toggleTaskCompleted_spec_witness :
    toggleTaskCompleted 0 "c" "t" true (Store.mk [] 0 0) =
      .error "Board not found" ∧
    toggleTaskCompleted 0 "zz" "t" true
        (Store.mk [BoardDoc.mk 0 (some "B") none
          [SColumn.mk "c" "C" [STask.mk "a" "x" (some false)]]] 1 5) =
      .ok (Store.mk [BoardDoc.mk 0 (some "B") none
          [SColumn.mk "c" "C" [STask.mk "a" "x" (some false)]]] 1 5) :=
  ⟨toggleTaskCompleted_spec.1 (Store.mk [] 0 0) 0 "c" "t" true (by decide),
   toggleTaskCompleted_spec.2
     (Store.mk [BoardDoc.mk 0 (some "B") none
       [SColumn.mk "c" "C" [STask.mk "a" "x" (some false)]]] 1 5) 0 "zz" "t"
     true (BoardDoc.mk 0 (some "B") none
       [SColumn.mk "c" "C" [STask.mk "a" "x" (some false)]])
     (by decide) (by decide) (by decide) (by decide)⟩

/-- C8: deleting an existing board always succeeds; the board is removed and
the returned id names a board that still exists; if boards remain the first
remaining one (in creation order) is returned, otherwise a fresh board seeded
with the default columns "Backlog", "In Progress", "Done" is inserted and
returned — the board collection is never empty afterwards. -/
theorem deleteBoard_spec :
    ∀ (st : Store) (bid : Nat) (b : BoardDoc),
      findBoardDoc st bid = some b →
      (deleteBoard bid st).isOk = true ∧
      ∀ (rid : Nat) (st2 : Store), deleteBoard bid st = .ok (rid, st2) →
        st2.boards ≠ [] ∧
        rid ∈ st2.boards.map (fun x => x.id) ∧
        (st.boards.eraseP (fun x => x.id == bid) ≠ [] →
          st2.boards = st.boards.eraseP (fun x => x.id == bid) ∧
          st2.boards.head?.map (fun x => x.id) = some rid) ∧
        (st.boards.eraseP (fun x => x.id == bid) = [] →
          st2.boards = [BoardDoc.mk st.nextId (some "Board 1") (some "default")
            (defaultColumns st.nextUuid)] ∧
          st2.boards.map (fun x => x.columns.map (fun c => c.title)) =
            [["Backlog", "In Progress", "Done"]]) := by
  intro st bid b hfind
  cases hrem : st.boards.eraseP (fun x => x.id == bid) with
  | cons first rest =>
    have hred : deleteBoard bid st =
        .ok (first.id, { st with boards := first :: rest }) := by
      unfold deleteBoard
      rw [hfind]
      dsimp only
      rw [hrem]
    constructor
    · rw [hred]
      rfl
    · intro rid st2 hok
      rw [hred] at hok
      injection hok with hok
      injection hok with h1 h2
      subst h1
      subst h2
      refine ⟨by simp, by simp, fun _ => ⟨rfl, by simp⟩,
        fun hc => (List.cons_ne_nil _ _ hc).elim⟩
  | nil =>
    have hred : deleteBoard bid st =
        .ok (st.nextId, Store.mk
          [BoardDoc.mk st.nextId (some "Board 1") (some "default")
            (defaultColumns st.nextUuid)]
          (st.nextId + 1) (st.nextUuid + 7)) := by
      unfold deleteBoard
      rw [hfind]
      dsimp only
      rw [hrem]
      rfl
    constructor
    · rw [hred]
      rfl
    · intro rid st2 hok
      rw [hred] at hok
      injection hok with hok
      injection hok with h1 h2
      subst h1
      subst h2
      refine ⟨by simp, by simp, fun hc => absurd rfl hc, fun _ =>
        ⟨rfl, by simp [defaultColumns]⟩⟩

/-- C8 witness: deleting the only board re-seeds a default board. -/
theorem deleteBoard_spec_witness :
    ((deleteBoard 0 (Store.mk [BoardDoc.mk 0 (some "B") none []] 1 5)).isOk
        = true) ∧
    (∀ (rid : Nat) (st2 : Store),
       deleteBoard 0 (Store.mk [BoardDoc.mk 0 (some "B") none []] 1 5) =
         .ok (rid, st2) →
       st2.boards ≠ [] ∧
       rid ∈ st2.boards.map (fun x => x.id) ∧
       ((Store.mk [BoardDoc.mk 0 (some "B") none []] 1 5).boards.eraseP
           (fun x => x.id == 0) ≠ [] →
         st2.boards = (Store.mk [BoardDoc.mk 0 (some "B") none []] 1 5).boards.eraseP
           (fun x => x.id == 0) ∧
         st2.boards.head?.map (fun x => x.id) = some rid) ∧
       ((Store.mk [BoardDoc.mk 0 (some "B") none []] 1 5).boards.eraseP
           (fun x => x.id == 0) = [] →
         st2.boards = [BoardDoc.mk
           (Store.mk [BoardDoc.mk 0 (some "B") none []] 1 5).nextId
           (some "Board 1") (some "default")
           (defaultColumns
             (Store.mk [BoardDoc.mk 0 (some "B") none []] 1 5).nextUuid)] ∧
         st2.boards.map (fun x => x.columns.map (fun c => c.title)) =
           [["Backlog", "In Progress", "Done"]])) :=
  deleteBoard_spec (Store.mk [BoardDoc.mk 0 (some "B") none []] 1 5) 0
    (BoardDoc.mk 0 (some "B") none []) (by decide)

theorem withDefaults_map_toSTask (ts : List Task) :
    withDefaults (ts.map toSTask) = ts.map toSTask := by
  apply withDefaults_of_defined
  intro t ht
  rcases List.mem_map.mp ht with ⟨t0, _, rfl⟩
  rfl

/-- `getBoard` on a non-empty store resolves a found board id to that board's
view: its columns are the stored ones, normalized. -/
theorem getBoard_some_eq (st2 : Store) (bid : Nat) (b2 b0 : BoardDoc)
    (rest : List BoardDoc) (hb : st2.boards = b0 :: rest)
    (hfind : st2.boards.find? (fun x => x.id == bid) = some b2) :
    getBoard (some bid) st2 =
      some { id := b2.id,
             name := boardName b2.name
               (st2.boards.findIdx (fun x => x.id == b2.id) + 1),
             slug := b2.slug, columns := normalizeColumns b2.columns } := by
  rw [hb] at hfind
  unfold getBoard
  rw [hb]
  dsimp only
  rw [Option.some_bind, hfind, Option.getD_some]

/-- C9: after `setColumns(id, cs)`, `getBoard(id)` returns a column list with
the same column ids and titles in the same order as `cs`, and per column the
same tasks with the same per-partition order — the only difference from `cs`
being re-partitioning into incomplete-before-completed order. -/
theorem setColumns_getBoard_roundtrip :
    ∀ (st : Store) (bid : Nat) (b : BoardDoc) (cs : List Column) (st2 : Store),
      findBoardDoc st bid = some b →
      setColumns bid cs st = .ok st2 →
      (getBoard (some bid) st2).isSome = true ∧
      ∀ bv : BoardView, getBoard (some bid) st2 = some bv →
        bv.columns.length = cs.length ∧
        (∀ k : Nat, bv.columns[k]?.map (fun c => c.id) =
          cs[k]?.map (fun c => c.id)) ∧
        (∀ k : Nat, bv.columns[k]?.map (fun c => c.title) =
          cs[k]?.map (fun c => c.title)) ∧
        (∀ (k : Nat) (colIn : Column) (colOut : SColumn),
          cs[k]? = some colIn → bv.columns[k]? = some colOut →
          PartitionedS colOut.tasks ∧
          colOut.tasks.filter (fun t => !(t.completed.getD false)) =
            (colIn.tasks.map toSTask).filter
              (fun t => !(t.completed.getD false)) ∧
          colOut.tasks.filter (fun t => t.completed.getD false) =
            (colIn.tasks.map toSTask).filter
              (fun t => t.completed.getD false)) := by
  intro st bid b cs st2 hfind hok
  unfold setColumns at hok
  rw [hfind] at hok
  dsimp only at hok
  injection hok with hok
  subst hok
  have hmem : b ∈ st.boards := List.mem_of_find?_eq_some hfind
  have hne : st.boards ≠ [] := by
    intro hh
    rw [hh] at hmem
    cases hmem
  have hfind2 : (patchBoard st bid (fun b' =>
      { b' with columns := normalizeColumns (cs.map toSColumn) })).boards.find?
      (fun x => x.id == bid) =
      some { b with columns := normalizeColumns (cs.map toSColumn) } := by
    simp only [patchBoard]
    exact find?_map_patch bid
      (fun b' => { b' with columns := normalizeColumns (cs.map toSColumn) })
      (fun x => rfl) st.boards b hfind
  cases hb2 : (patchBoard st bid (fun b' =>
      { b' with columns := normalizeColumns (cs.map toSColumn) })).boards with
  | nil =>
    exfalso
    simp only [patchBoard] at hb2
    exact hne (List.map_eq_nil_iff.mp hb2)
  | cons b0 rest2 =>
    have hgb := getBoard_some_eq _ bid
      { b with columns := normalizeColumns (cs.map toSColumn) } b0 rest2 hb2
      hfind2
    constructor
    · rw [hgb]
      rfl
    · intro bv hbv
      rw [hgb] at hbv
      injection hbv with hbv
      have hcols : bv.columns = normalizeColumns (cs.map toSColumn) := by
        rw [← hbv]
        exact normalizeColumns_idem (cs.map toSColumn)
      refine ⟨?_, ?_, ?_, ?_⟩
      · rw [hcols]
        simp [normalizeColumns]
      · intro k
        rw [hcols]
        simp only [normalizeColumns, List.getElem?_map, Option.map_map]
        cases cs[k]? <;> rfl
      · intro k
        rw [hcols]
        simp only [normalizeColumns, List.getElem?_map, Option.map_map]
        cases cs[k]? <;> rfl
      · intro k colIn colOut hIn hOut
        rw [hcols] at hOut
        simp only [normalizeColumns, List.getElem?_map, Option.map_map, hIn,
          Option.map_some'] at hOut
        injection hOut with hOut
        subst hOut
        dsimp only [Function.comp, toSColumn]
        rw [withDefaults_map_toSTask]
        exact ⟨partitionedS_partitionS _, partitionS_filter_not _,
          partitionS_filter_yes _⟩

/-- C9 witness: a two-task column (one completed first) round-trips into the
re-partitioned order. -/
theorem setColumns_getBoard_roundtrip_witness :
    ((getBoard (some 0) (Store.mk [BoardDoc.mk 0 (some "B") none
        [SColumn.mk "c" "C" [STask.mk "b" "y" (some false),
          STask.mk "a" "x" (some true)]]] 1 5)).isSome = true) ∧
    (∀ bv : BoardView,
       getBoard (some 0) (Store.mk [BoardDoc.mk 0 (some "B") none
          [SColumn.mk "c" "C" [STask.mk "b" "y" (some false),
            STask.mk "a" "x" (some true)]]] 1 5) = some bv →
       bv.columns.length =
         ([Column.mk "c" "C" [Task.mk "a" "x" true, Task.mk "b" "y" false]] :
           List Column).length ∧
       (∀ k : Nat, bv.columns[k]?.map (fun c => c.id) =
         ([Column.mk "c" "C" [Task.mk "a" "x" true,
           Task.mk "b" "y" false]] : List Column)[k]?.map (fun c => c.id)) ∧
       (∀ k : Nat, bv.columns[k]?.map (fun c => c.title) =
         ([Column.mk "c" "C" [Task.mk "a" "x" true,
           Task.mk "b" "y" false]] : List Column)[k]?.map (fun c => c.title)) ∧
       (∀ (k : Nat) (colIn : Column) (colOut : SColumn),
         ([Column.mk "c" "C" [Task.mk "a" "x" true,
           Task.mk "b" "y" false]] : List Column)[k]? = some colIn →
         bv.columns[k]? = some colOut →
         PartitionedS colOut.tasks ∧
         colOut.tasks.filter (fun t => !(t.completed.getD false)) =
           (colIn.tasks.map toSTask).filter
             (fun t => !(t.completed.getD false)) ∧
         colOut.tasks.filter (fun t => t.completed.getD false) =
           (colIn.tasks.map toSTask).filter
             (fun t => t.completed.getD false))) :=
  setColumns_getBoard_roundtrip
    (Store.mk [BoardDoc.mk 0 (some "B") none []] 1 5) 0
    (BoardDoc.mk 0 (some "B") none [])
    [Column.mk "c" "C" [Task.mk "a" "x" true, Task.mk "b" "y" false]]
    (Store.mk [BoardDoc.mk 0 (some "B") none
      [SColumn.mk "c" "C" [STask.mk "b" "y" (some false),
        STask.mk "a" "x" (some true)]]] 1 5)
    (by decide) (by decide)

end ToDoBoard
